import Mathlib

/-!
Verification development for a small CDC COVID ETL pipeline
(`api_client.py`, `data_transformer.py`, `mysql_handler.py`, `main.py`).

Tabular batches (pandas DataFrames) are modelled as a list of column names
together with a list of rows; each row is an association list from column
name to cell value.  Cell values are dates (encoded as naturals), integers,
strings, or null (NaN).  The transformer, the chunked fetch generator, the
retry loop and the upsert statement are translated from the source; in-place
column assignments versus rebinding of the local dataframe variable are
modelled explicitly so that the state of the caller's object after
`clean_and_transform` can be reasoned about.
-/

namespace CdcEtl

/-- Cell values of a dataframe: a parsed calendar date (encoded as a natural
number), an integer, a string, or null (pandas NaN/NaT). -/
inductive Val where
  | vStr : String → Val
  | vInt : Int → Val
  | vDate : Nat → Val
  | vNull : Val
deriving DecidableEq

/-- One dataframe row: an association list from column name to cell value. -/
abbrev Row := List (String × Val)

/-- A dataframe: column names plus rows. -/
structure Batch where
  cols : List String
  rows : List Row
deriving DecidableEq

/-- Reads decimal digit characters as a natural number (accumulator form). -/
def digitsToNatAux : List Char → Nat → Option Nat
  | [], acc => some acc
  | ch :: rest, acc =>
    if ch.isDigit then digitsToNatAux rest (acc * 10 + (ch.toNat - 48)) else none

/-- Reads a nonempty list of decimal digits as a natural number. -/
def digitsToNat (l : List Char) : Option Nat :=
  if l.isEmpty then none else digitsToNatAux l 0

/-- Splits a character list on the dash character. -/
def splitDashAux : List Char → List Char → List (List Char)
  | [], acc => [acc.reverse]
  | ch :: rest, acc =>
    if ch = '-' then acc.reverse :: splitDashAux rest [] else splitDashAux rest (ch :: acc)

/-- Splits a character list on dashes. -/
def splitDash (l : List Char) : List (List Char) := splitDashAux l []

/-- Encodes a calendar date as a natural number, monotone in (year, month, day). -/
def mkDateCode (y m d : Nat) : Nat := y * 1000 + m * 50 + d

/-- Models `pd.to_datetime` string parsing for the `YYYY-MM` and `YYYY-MM-DD`
shapes used by the `case_month` column; anything else fails to parse. -/
def parseDateStr (s : String) : Option Nat :=
  match splitDash s.data with
  | [ys, ms] =>
    match digitsToNat ys, digitsToNat ms with
    | some y, some m => if 1 ≤ m ∧ m ≤ 12 then some (mkDateCode y m 1) else none
    | _, _ => none
  | [ys, ms, ds] =>
    match digitsToNat ys, digitsToNat ms, digitsToNat ds with
    | some y, some m, some d =>
      if (1 ≤ m ∧ m ≤ 12) ∧ (1 ≤ d ∧ d ≤ 31) then some (mkDateCode y m d) else none
    | _, _, _ => none
  | _ => none

/-- Reads an optional minus sign followed by digits as an integer
(models `pd.to_numeric` on string cells; non-integer text fails). -/
def parseIntStr (s : String) : Option Int :=
  match s.data with
  | '-' :: rest => (digitsToNat rest).map (fun n => -(n : Int))
  | l => (digitsToNat l).map (fun n => (n : Int))

/-- Renders a date code back to text (used when a date cell is cast to string). -/
def dateCodeToStr (d : Nat) : String :=
  toString (d / 1000) ++ "-" ++ toString (d % 1000 / 50) ++ "-" ++ toString (d % 50)

/-- Models `pd.to_datetime(col, errors='coerce')` on one cell: dates stay, strings
are parsed (unparsable becomes NaT/null), integers are read as epoch offsets,
null stays null. -/
def parseDate : Val → Val
  | .vDate d => .vDate d
  | .vStr s => match parseDateStr s with | some d => .vDate d | none => .vNull
  | .vInt n => .vDate n.toNat
  | .vNull => .vNull

/-- Models `pd.to_numeric(col, errors='coerce').fillna(0).astype(int)` on one
cell: integers stay, parsable strings become their integer value, everything
unparsable or null becomes 0. -/
def coerceInt : Val → Val
  | .vInt n => .vInt n
  | .vStr s => .vInt ((parseIntStr s).getD 0)
  | .vDate d => .vInt (Int.ofNat d)
  | .vNull => .vInt 0

/-- Whitespace test used by strip. -/
def isWS (ch : Char) : Bool := ch.isWhitespace

/-- Strips leading and trailing whitespace from a character list. -/
def stripChars (l : List Char) : List Char :=
  ((l.dropWhile isWS).reverse.dropWhile isWS).reverse

/-- Strips leading and trailing whitespace from a string (models `str.strip`). -/
def stripStr (s : String) : String := String.mk (stripChars s.data)

/-- Models `col.fillna('Unknown').astype(str).str.strip()` on one cell: null
becomes `"Unknown"`, any other value is cast to a string and stripped. -/
def strClean : Val → Val
  | .vNull => .vStr "Unknown"
  | .vStr s => .vStr (stripStr s)
  | .vInt n => .vStr (stripStr (toString n))
  | .vDate d => .vStr (stripStr (dateCodeToStr d))

/-- First value bound to a column name in a row, if any. -/
def rowGet : Row → String → Option Val
  | [], _ => none
  | p :: r, c => if p.1 = c then some p.2 else rowGet r c

/-- Cell value of a row at a column; a missing binding reads as null (NaN). -/
def getVal (r : Row) (c : String) : Val := (rowGet r c).getD .vNull

/-- Writes a value into a row at a column: existing bindings for the column are
overwritten, otherwise the binding is appended. -/
def setVal (r : Row) (c : String) (v : Val) : Row :=
  if (rowGet r c).isSome then r.map (fun p => if p.1 = c then (c, v) else p)
  else r ++ [(c, v)]

/-- Models `c in df.columns`. -/
def hasCol (c : String) (b : Batch) : Bool := decide (c ∈ b.cols)

/-- Models the column assignment `df[c] = f(df[c])`: every row's cell at `c` is
replaced by `f` of its current value, and the column is appended to the column
list when absent. -/
def setColB (c : String) (f : Val → Val) (b : Batch) : Batch :=
  { cols := if c ∈ b.cols then b.cols else b.cols ++ [c],
    rows := b.rows.map (fun r => setVal r c (f (getVal r c))) }

/-- Models `df.dropna(subset=[c])`: keeps the rows whose cell at `c` is not null. -/
def dropNullRows (c : String) (b : Batch) : Batch :=
  { cols := b.cols, rows := b.rows.filter (fun r => !decide (getVal r c = Val.vNull)) }

/-- Applies a dataframe operation under a condition (models a guarded statement). -/
def applyIf (cond : Batch → Bool) (f : Batch → Batch) (b : Batch) : Batch :=
  if cond b then f b else b

/-- The twelve categorical string columns standardised by the transformer,
in source order. -/
def strCols : List String :=
  ["res_state", "age_group", "sex", "race", "ethnicity", "exposure_yn", "current_status",
   "symptom_status", "death_yn", "hosp_yn", "icu_yn", "underlying_conditions_yn"]

/-- The `case_month` steps of `clean_and_transform`: convert to datetime in
place, then drop rows whose date is null, both guarded by column presence. -/
def stageDate (b : Batch) : Batch :=
  applyIf (hasCol "case_month") (dropNullRows "case_month")
    (applyIf (hasCol "case_month") (setColB "case_month" parseDate) b)

/-- The numeric coercion steps for the two interval columns. -/
def stageNum (b : Batch) : Batch :=
  applyIf (hasCol "case_onset_interval") (setColB "case_onset_interval" coerceInt)
    (applyIf (hasCol "case_positive_specimen_interval")
      (setColB "case_positive_specimen_interval" coerceInt) b)

/-- The loop standardising the categorical string columns. -/
def stageStrList (L : List String) (b : Batch) : Batch :=
  L.foldl (fun acc c => applyIf (hasCol c) (setColB c strClean) acc) b

/-- The location dropna loop over `res_state` and `state_fips_code`. -/
def stageLoc (b : Batch) : Batch :=
  applyIf (hasCol "state_fips_code") (dropNullRows "state_fips_code")
    (applyIf (hasCol "res_state") (dropNullRows "res_state") b)

/-- The final step synthesising the `process` column when absent. -/
def stageProc (b : Batch) : Batch :=
  applyIf (fun x => !hasCol "process" x) (setColB "process" (fun _ => .vStr "Unknown")) b

/-- The whole body of `clean_and_transform` acting on the local dataframe
variable (the non-empty input case). -/
def cleanLocal (b : Batch) : Batch :=
  stageProc (stageLoc (stageStrList strCols (stageNum (stageDate b))))

/-- Python object state during `clean_and_transform`: the batch currently bound
to the local name `df`, the batch held by the caller's object, and whether the
local name still aliases the caller's object. -/
structure PState where
  cur : Batch
  caller : Batch
  aliased : Bool
deriving DecidableEq

/-- An in-place mutation (`df[col] = ...`): updates the local batch, and the
caller's object too while the local name still aliases it. -/
def inPlace (f : Batch → Batch) (s : PState) : PState :=
  { cur := f s.cur, caller := if s.aliased then f s.cur else s.caller, aliased := s.aliased }

/-- A rebinding (`df = df.dropna(...)`): the local name now refers to a fresh
object; the caller's object is no longer affected. -/
def rebind (f : Batch → Batch) (s : PState) : PState :=
  { cur := f s.cur, caller := s.caller, aliased := false }

/-- Guarded in-place mutation. -/
def stepIP (cond : Batch → Bool) (f : Batch → Batch) (s : PState) : PState :=
  if cond s.cur then inPlace f s else s

/-- Guarded rebinding. -/
def stepRB (cond : Batch → Bool) (f : Batch → Batch) (s : PState) : PState :=
  if cond s.cur then rebind f s else s

/-- `case_month` steps with object tracking: the datetime conversion is an
in-place column assignment, the dropna rebinds. -/
def stageDateP (s : PState) : PState :=
  stepRB (hasCol "case_month") (dropNullRows "case_month")
    (stepIP (hasCol "case_month") (setColB "case_month" parseDate) s)

/-- Interval coercions with object tracking (both in place). -/
def stageNumP (s : PState) : PState :=
  stepIP (hasCol "case_onset_interval") (setColB "case_onset_interval" coerceInt)
    (stepIP (hasCol "case_positive_specimen_interval")
      (setColB "case_positive_specimen_interval" coerceInt) s)

/-- String standardisation loop with object tracking (in place). -/
def stageStrListP (L : List String) (s : PState) : PState :=
  L.foldl (fun acc c => stepIP (hasCol c) (setColB c strClean) acc) s

/-- Location dropna loop with object tracking (both rebind). -/
def stageLocP (s : PState) : PState :=
  stepRB (hasCol "state_fips_code") (dropNullRows "state_fips_code")
    (stepRB (hasCol "res_state") (dropNullRows "res_state") s)

/-- `process` synthesis with object tracking (in place). -/
def stageProcP (s : PState) : PState :=
  stepIP (fun x => !hasCol "process" x) (setColB "process" (fun _ => .vStr "Unknown")) s

/-- The whole transformer body with object tracking. -/
def cleanPipelineP (s : PState) : PState :=
  stageProcP (stageLocP (stageStrListP strCols (stageNumP (stageDateP s))))

/-- Runs `DataTransformer.clean_and_transform` on a batch, starting from the
state in which the local name aliases the caller's object; empty input is
returned unchanged (the source's `expected_schema` parameter is unused there
and omitted here). -/
def cleanRun (b : Batch) : PState :=
  if b.rows.isEmpty then { cur := b, caller := b, aliased := true }
  else cleanPipelineP { cur := b, caller := b, aliased := true }

/-- The batch returned by `clean_and_transform`. -/
def clean_and_transform (b : Batch) : Batch := (cleanRun b).cur

/-- The state of the caller's batch object after `clean_and_transform` returns. -/
def callerBatchAfter (b : Batch) : Batch := (cleanRun b).caller

/-- The empty dataframe returned by `fetch_data` after exhausting retries. -/
def emptyBatch : Batch := { cols := [], rows := [] }

/-- Observable outcome of `APIClient.fetch_data`: the returned dataframe, the
number of attempts made, and the sleeps performed between attempts. -/
structure FetchOutcome where
  result : Batch
  attempts : Nat
  sleeps : List Nat
deriving DecidableEq

/-- The `for attempt in range(retries)` loop of `fetch_data`: `attempt i` is the
dataframe read on attempt `i` when it succeeds, or `none` when it raises.  On
failure the loop sleeps `wait` only when another attempt remains
(`attempt < retries - 1`); when the range is exhausted an empty dataframe is
returned.  The fuel argument is `retries - i`. -/
def fetchDataLoop (attempt : Nat → Option Batch) (retries wait i : Nat) : Nat → FetchOutcome
  | 0 => { result := emptyBatch, attempts := 0, sleeps := [] }
  | fuel + 1 =>
    match attempt i with
    | some df => { result := df, attempts := 1, sleeps := [] }
    | none =>
      let t := fetchDataLoop attempt retries wait (i + 1) fuel
      if i < retries - 1 then
        { result := t.result, attempts := t.attempts + 1, sleeps := wait :: t.sleeps }
      else
        { result := t.result, attempts := t.attempts + 1, sleeps := t.sleeps }

/-- `APIClient.fetch_data` with retry logic, starting at attempt 0. -/
def fetch_data (attempt : Nat → Option Batch) (retries wait : Nat) : FetchOutcome :=
  fetchDataLoop attempt retries wait 0 retries

/-- Date cell comparison used by the chunk filter `case_month.dt.date >= start`:
null/NaT compares false. -/
def dateGE (v : Val) (s : Nat) : Bool :=
  match v with
  | .vDate d => decide (s ≤ d)
  | _ => false

/-- Date cell comparison used by the chunk filter `case_month.dt.date <= end`:
null/NaT compares false. -/
def dateLE (v : Val) (e : Nat) : Bool :=
  match v with
  | .vDate d => decide (d ≤ e)
  | _ => false

/-- Keeps the rows whose cell at `c` satisfies the predicate. -/
def filterRows (c : String) (p : Val → Bool) (b : Batch) : Batch :=
  { cols := b.cols, rows := b.rows.filter (fun r => p (getVal r c)) }

/-- The date-filtering block of `fetch_data_chunked`: when a start or end date
is configured and the `case_month` column is present, the column is converted
to datetime in place and the rows are filtered to the requested range; when the
column is absent the chunk passes through unfiltered. -/
def applyDateFilter (startD endD : Option Nat) (b : Batch) : Batch :=
  if startD.isSome || endD.isSome then
    if hasCol "case_month" b then
      let b1 := setColB "case_month" parseDate b
      let b2 := match startD with
        | some s => filterRows "case_month" (fun v => dateGE v s) b1
        | none => b1
      match endD with
      | some e => filterRows "case_month" (fun v => dateLE v e) b2
      | none => b2
    else b
  else b

/-- Per-call limit of `fetch_data_chunked`:
`min(chunk_size, max_rows - total_rows) if max_rows else chunk_size`
(a zero `max_rows` is falsy in Python). -/
def limitFor (maxRows : Option Nat) (chunkSize total : Nat) : Nat :=
  match maxRows with
  | some m => if m ≠ 0 then min chunkSize (m - total) else chunkSize
  | none => chunkSize

/-- The `max_rows` stop test at the top of the loop. -/
def stopMax (maxRows : Option Nat) (total : Nat) : Bool :=
  match maxRows with
  | some m => decide (total ≥ m)
  | none => false

/-- `APIClient.fetch_data_chunked` as a function from a page source to the list
of yielded chunks.  `page limit offset` is the raw dataframe fetched by
`fetch_data`.  Per iteration: stop when the row budget is exhausted; fetch one
page; stop on an empty raw page; apply the date filter; stop (without yielding)
when filtering emptied the chunk and a filter was requested; yield; advance the
offset by `chunk_size` and the total by the yielded (post-filter) row count;
stop after yielding when that count is below the requested limit.  The fuel
argument bounds how many iterations of the unbounded `while True` loop are
observed. -/
def fetchChunks (page : Nat → Nat → Batch) (chunkSize : Nat)
    (maxRows startD endD : Option Nat) : Nat → Nat → Nat → List Batch
  | 0, _, _ => []
  | fuel + 1, offset, total =>
    if stopMax maxRows total then []
    else
      let limit := limitFor maxRows chunkSize total
      let raw := page limit offset
      if raw.rows.isEmpty then []
      else
        let chunk := applyDateFilter startD endD raw
        if chunk.rows.isEmpty && (startD.isSome || endD.isSome) then []
        else
          let fetched := chunk.rows.length
          if fetched < limit then [chunk]
          else chunk :: fetchChunks page chunkSize maxRows startD endD fuel
            (offset + chunkSize) (total + fetched)

/-- Total number of rows across a list of yielded chunks. -/
def totalYielded (l : List Batch) : Nat := (l.map (fun b => b.rows.length)).sum

/-- A stored row of the `cdc_covid_cases` table (the surrogate id aside);
`case_month` is the serialised date string or SQL NULL. -/
structure CdcRecord where
  case_month : Option String
  res_state : Val
  state_fips_code : Val
  age_group : Val
  sex : Val
  race : Val
  ethnicity : Val
  case_positive_specimen_interval : Val
  case_onset_interval : Val
  process : Val
  exposure_yn : Val
  current_status : Val
  symptom_status : Val
  hosp_yn : Val
  icu_yn : Val
  death_yn : Val
  underlying_conditions_yn : Val
deriving DecidableEq

/-- Models `row[col] if col in row else default`: the cell when the column
exists in the dataframe, the documented default otherwise. -/
def colOrDefault (cols : List String) (r : Row) (c : String) (dflt : Val) : Val :=
  if c ∈ cols then getVal r c else dflt

/-- Serialises the `case_month` cell for MySQL: a date renders as its date
string (`strftime('%Y-%m-%d')`), null becomes SQL NULL, other non-null values
render as text. -/
def caseMonthStr : Val → Option String
  | .vNull => none
  | .vDate d => some (dateCodeToStr d)
  | .vStr s => some s
  | .vInt n => some (toString n)

/-- Builds the parameter tuple `load_cdc_data` inserts for one dataframe row,
filling columns absent from the dataframe with the defaults of
`expected_cols`. -/
def buildRow (cols : List String) (r : Row) : CdcRecord :=
  { case_month := caseMonthStr (colOrDefault cols r "case_month" .vNull),
    res_state := colOrDefault cols r "res_state" (.vStr "Unknown"),
    state_fips_code := colOrDefault cols r "state_fips_code" (.vInt 0),
    age_group := colOrDefault cols r "age_group" (.vStr "Unknown"),
    sex := colOrDefault cols r "sex" (.vStr "Unknown"),
    race := colOrDefault cols r "race" (.vStr "Unknown"),
    ethnicity := colOrDefault cols r "ethnicity" (.vStr "Unknown"),
    case_positive_specimen_interval :=
      colOrDefault cols r "case_positive_specimen_interval" (.vInt 0),
    case_onset_interval := colOrDefault cols r "case_onset_interval" (.vInt 0),
    process := colOrDefault cols r "process" (.vStr "Unknown"),
    exposure_yn := colOrDefault cols r "exposure_yn" (.vStr "Unknown"),
    current_status := colOrDefault cols r "current_status" (.vStr "Unknown"),
    symptom_status := colOrDefault cols r "symptom_status" (.vStr "Unknown"),
    hosp_yn := colOrDefault cols r "hosp_yn" (.vStr "Unknown"),
    icu_yn := colOrDefault cols r "icu_yn" (.vStr "Unknown"),
    death_yn := colOrDefault cols r "death_yn" (.vStr "Unknown"),
    underlying_conditions_yn := colOrDefault cols r "underlying_conditions_yn" (.vStr "Unknown") }

/-- The parameter tuples `load_cdc_data` builds for a dataframe (one per row,
no row is ever skipped). -/
def loadRows (b : Batch) : List CdcRecord := b.rows.map (buildRow b.cols)

/-- The `unique_case` key of the `cdc_covid_cases` table. -/
def rowKey (x : CdcRecord) : Option String × Val × Val × Val × Val × Val :=
  (x.case_month, x.res_state, x.age_group, x.sex, x.race, x.ethnicity)

/-- The `ON DUPLICATE KEY UPDATE` clause: overwrites exactly the four volatile
fields of the existing row with the new row's values. -/
def applyVolatile (old new : CdcRecord) : CdcRecord :=
  { old with
    death_yn := new.death_yn
    hosp_yn := new.hosp_yn
    icu_yn := new.icu_yn
    underlying_conditions_yn := new.underlying_conditions_yn }

/-- One execution of the `INSERT ... ON DUPLICATE KEY UPDATE` statement of
`load_cdc_data` against a table state: on a `unique_case` conflict the existing
row's volatile fields are updated, otherwise the row is appended. -/
def upsertOne (table : List CdcRecord) (x : CdcRecord) : List CdcRecord :=
  if table.any (fun old => decide (rowKey old = rowKey x)) then
    table.map (fun old => if rowKey old = rowKey x then applyVolatile old x else old)
  else table ++ [x]

/-- The batched `executemany` of `load_cdc_data`: upserts the rows in order. -/
def upsertMany (table : List CdcRecord) (xs : List CdcRecord) : List CdcRecord :=
  xs.foldl upsertOne table

/-- A raw input row whose `res_state` cell is null while `state_fips_code` is
present and non-null. -/
def exRowNullState : Row :=
  [("case_month", .vStr "2020-01"), ("res_state", .vNull), ("state_fips_code", .vInt 5)]

/-- A one-row batch whose only row has a null `res_state`. -/
def exBatchNullState : Batch :=
  { cols := ["case_month", "res_state", "state_fips_code"], rows := [exRowNullState] }

/-- A one-row, one-column batch carrying a parsable `case_month` string. -/
def exBatchDate : Batch :=
  { cols := ["case_month"], rows := [[("case_month", .vStr "2020-01")]] }

/-- A one-row batch whose interval cell is the negative integer string `-3`. -/
def exBatchNegInterval : Batch :=
  { cols := ["case_positive_specimen_interval"],
    rows := [[("case_positive_specimen_interval", .vStr "-3")]] }

/-- A raw page of two rows whose `case_month` values are 2021-05 and 2019-01. -/
def exPageMixed : Batch :=
  { cols := ["case_month"],
    rows := [[("case_month", .vStr "2021-05")], [("case_month", .vStr "2019-01")]] }

/-- A raw page of two rows whose `case_month` values both lie in 2021. -/
def exPageLate : Batch :=
  { cols := ["case_month"],
    rows := [[("case_month", .vStr "2021-06")], [("case_month", .vStr "2021-07")]] }

/-- A page source: two raw rows at offset 0 (one inside and one before the
2020-01-01 start date), and two 2021 rows at every later offset. -/
def exSourceFiltered : Nat → Nat → Batch := fun _ o => if o = 0 then exPageMixed else exPageLate

/-- A page source for the plain two-page scenario: a full page of two rows at
offset 0, a single row afterwards. -/
def exSourceTwoPages : Nat → Nat → Batch := fun _ o =>
  if o = 0 then exPageLate else { cols := ["case_month"], rows := [[("case_month", .vStr "2021-08")]] }

/-- A fully populated stored record used to exercise the upsert clause. -/
def exRecordFirst : CdcRecord :=
  { case_month := some "2020-01-01"
    res_state := .vStr "NY"
    state_fips_code := .vInt 36
    age_group := .vStr "0 - 17 years"
    sex := .vStr "Female"
    race := .vStr "White"
    ethnicity := .vStr "Non-Hispanic"
    case_positive_specimen_interval := .vInt 0
    case_onset_interval := .vInt 1
    process := .vStr "Unknown"
    exposure_yn := .vStr "Yes"
    current_status := .vStr "Laboratory-confirmed case"
    symptom_status := .vStr "Symptomatic"
    hosp_yn := .vStr "No"
    icu_yn := .vStr "No"
    death_yn := .vStr "No"
    underlying_conditions_yn := .vStr "No" }

/-- A second record sharing `exRecordFirst`'s unique key but differing in
`death_yn` and in the non-key, non-volatile field `state_fips_code`. -/
def exRecordSecond : CdcRecord :=
  { exRecordFirst with death_yn := .vStr "Yes", state_fips_code := .vInt 99 }

/-- A one-row batch that lacks both required location columns. -/
def exBatchNoLocation : Batch :=
  { cols := ["age_group"], rows := [[("age_group", .vStr "18 to 49 years")]] }

/-!  Helper lemmas about lists and rows. -/

theorem list_map_id_of {α : Type} {l : List α} {f : α → α} (h : ∀ a ∈ l, f a = a) :
    l.map f = l := by
  induction l with
  | nil => rfl
  | cons a l ih =>
    simp only [List.map_cons]
    rw [h a (by simp), ih (fun x hx => h x (by simp [hx]))]

theorem list_filter_id_of {α : Type} {l : List α} {p : α → Bool} (h : ∀ a ∈ l, p a = true) :
    l.filter p = l := by
  induction l with
  | nil => rfl
  | cons a l ih =>
    rw [List.filter_cons, if_pos (h a (by simp)), ih (fun x hx => h x (by simp [hx]))]

/-!  Claim C6: retry exhaustion in `fetch_data`. -/

theorem fetchDataLoop_all_fail (attempt : Nat → Option Batch) (retries wait : Nat)
    (h : ∀ i, i < retries → attempt i = none) :
    ∀ fuel i, i + fuel = retries →
      fetchDataLoop attempt retries wait i fuel =
        { result := emptyBatch, attempts := fuel, sleeps := List.replicate (fuel - 1) wait } := by
  intro fuel
  induction fuel with
  | zero => intro i _; rfl
  | succ k ih =>
    intro i hi
    have hfail : attempt i = none := h i (by omega)
    show fetchDataLoop attempt retries wait i (k + 1) = _
    rw [fetchDataLoop, hfail]
    simp only
    rw [ih (i + 1) (by omega)]
    by_cases hk : k = 0
    · subst hk
      rw [if_neg (by omega)]
    · rw [if_pos (by omega)]
      have hk1 : k + 1 - 1 = (k - 1) + 1 := by omega
      rw [hk1, List.replicate_succ]

/-- Claim C6: when every attempt fails, `fetch_data` makes exactly `retries`
attempts, sleeps the fixed delay exactly between consecutive attempts (hence
`retries - 1` sleeps, none after the last), and returns an empty dataframe as
an ordinary value. -/
theorem fetch_data_exhausts_retries (attempt : Nat → Option Batch) (retries wait : Nat)
    (h : ∀ i, i < retries → attempt i = none) :
    fetch_data attempt retries wait =
      { result := emptyBatch, attempts := retries, sleeps := List.replicate (retries - 1) wait } :=
  fetchDataLoop_all_fail attempt retries wait h retries 0 (by omega)

/-- Witness for C6: three failing attempts with delay 2 give an empty result,
three attempts, and two sleeps of 2. -/
theorem fetch_data_exhausts_retries_witness :
    fetch_data (fun _ => none) 3 2 =
      { result := emptyBatch, attempts := 3, sleeps := List.replicate 2 2 } :=
  fetch_data_exhausts_retries (fun _ => none) 3 2 (fun _ _ => rfl)

/-!  Claim C2: the upsert conflict clause. -/

/-- Claim C2: upserting two rows with the same `unique_case` key into a table
that does not yet contain that key stores a single row whose four volatile
fields come from the second row and whose every other field comes from the
first. -/
theorem upsert_updates_only_volatile (t : List CdcRecord) (x y : CdcRecord)
    (hk : rowKey x = rowKey y) (ht : ∀ old ∈ t, rowKey old ≠ rowKey x) :
    upsertOne (upsertOne t x) y = t ++ [applyVolatile x y] := by
  have h1 : upsertOne t x = t ++ [x] := by
    unfold upsertOne
    rw [if_neg]
    simp only [List.any_eq_true, decide_eq_true_eq, not_exists, not_and]
    exact ht
  rw [h1]
  unfold upsertOne
  rw [if_pos]
  · rw [List.map_append]
    congr 1
    · apply list_map_id_of
      intro a ha
      rw [if_neg]
      rw [← hk]
      exact ht a ha
    · simp [hk]
  · simp only [List.any_eq_true, decide_eq_true_eq]
    exact ⟨x, by simp, hk⟩

/-- Witness for C2: after the two concrete upserts the stored row has the
second row's `death_yn` but the first row's `state_fips_code`. -/
theorem upsert_updates_only_volatile_witness :
    upsertOne (upsertOne [] exRecordFirst) exRecordSecond =
      [applyVolatile exRecordFirst exRecordSecond] ∧
    (applyVolatile exRecordFirst exRecordSecond).death_yn = .vStr "Yes" ∧
    (applyVolatile exRecordFirst exRecordSecond).state_fips_code = .vInt 36 :=
  ⟨upsert_updates_only_volatile [] exRecordFirst exRecordSecond rfl
    (fun old hmem => absurd hmem (List.not_mem_nil old)), by decide, by decide⟩

/-!  Claim C10: `load_cdc_data` never rejects a row for a missing column. -/

/-- Claim C10: when a batch lacks the `res_state` and `state_fips_code`
columns, `load_cdc_data` still builds one parameter tuple per row, substituting
`'Unknown'` for `res_state` and `0` for `state_fips_code`. -/
theorem load_fills_missing_with_defaults (b : Batch)
    (h1 : "res_state" ∉ b.cols) (h2 : "state_fips_code" ∉ b.cols) :
    (loadRows b).length = b.rows.length ∧
    ∀ x ∈ loadRows b, x.res_state = .vStr "Unknown" ∧ x.state_fips_code = .vInt 0 := by
  constructor
  · exact List.length_map b.rows (buildRow b.cols)
  · intro x hx
    rcases List.mem_map.mp hx with ⟨r, _, hr⟩
    subst hr
    constructor
    · show colOrDefault b.cols r "res_state" (.vStr "Unknown") = .vStr "Unknown"
      unfold colOrDefault
      rw [if_neg h1]
    · show colOrDefault b.cols r "state_fips_code" (.vInt 0) = .vInt 0
      unfold colOrDefault
      rw [if_neg h2]

/-- Witness for C10: the one-row batch without location columns yields one
tuple, and that tuple carries the substituted defaults. -/
theorem load_fills_missing_with_defaults_witness :
    (loadRows exBatchNoLocation).length = exBatchNoLocation.rows.length ∧
    (buildRow exBatchNoLocation.cols [("age_group", Val.vStr "18 to 49 years")]).res_state =
      Val.vStr "Unknown" ∧
    (buildRow exBatchNoLocation.cols
      [("age_group", Val.vStr "18 to 49 years")]).state_fips_code = Val.vInt 0 :=
  ⟨(load_fills_missing_with_defaults exBatchNoLocation (by decide) (by decide)).1,
   (load_fills_missing_with_defaults exBatchNoLocation (by decide) (by decide)).2 _ (by decide)⟩

/-!  Lemmas about the chunk generator. -/

theorem applyDateFilter_inactive (startD endD : Option Nat) (b : Batch)
    (h : (startD.isSome || endD.isSome) = false) : applyDateFilter startD endD b = b := by
  unfold applyDateFilter
  rw [if_neg]
  simp [h]

theorem length_rows_setColB (c : String) (f : Val → Val) (b : Batch) :
    (setColB c f b).rows.length = b.rows.length := by
  unfold setColB
  simp

theorem length_rows_filterRows_le (c : String) (p : Val → Bool) (b : Batch) :
    (filterRows c p b).rows.length ≤ b.rows.length := by
  unfold filterRows
  simp only
  exact List.length_filter_le _ _

theorem length_rows_applyDateFilter_le (startD endD : Option Nat) (b : Batch) :
    (applyDateFilter startD endD b).rows.length ≤ b.rows.length := by
  unfold applyDateFilter
  by_cases h : (startD.isSome || endD.isSome) = true
  · rw [if_pos h]
    by_cases hc : hasCol "case_month" b = true
    · rw [if_pos hc]
      have h1 : (setColB "case_month" parseDate b).rows.length = b.rows.length :=
        length_rows_setColB _ _ _
      cases startD with
      | none =>
        cases endD with
        | none => simp at h
        | some e =>
          simp only
          exact le_trans (length_rows_filterRows_le _ _ _) (le_of_eq h1)
      | some s =>
        cases endD with
        | none =>
          simp only
          exact le_trans (length_rows_filterRows_le _ _ _) (le_of_eq h1)
        | some e =>
          simp only
          exact le_trans (length_rows_filterRows_le _ _ _)
            (le_trans (length_rows_filterRows_le _ _ _) (le_of_eq h1))
    · rw [if_neg hc]
  · rw [if_neg h]

theorem fetchChunks_budget (page : Nat → Nat → Batch) (chunkSize m : Nat)
    (startD endD : Option Nat) (hall : ∀ l o, (page l o).rows.length ≤ l) :
    ∀ fuel offset total,
      totalYielded (fetchChunks page chunkSize (some m) startD endD fuel offset total) ≤
        m - total := by
  intro fuel
  induction fuel with
  | zero => intro offset total; simp [fetchChunks, totalYielded]
  | succ k ih =>
    intro offset total
    show totalYielded (fetchChunks page chunkSize (some m) startD endD (k + 1) offset total) ≤ _
    rw [fetchChunks]
    by_cases hstop : stopMax (some m) total = true
    · rw [if_pos hstop]; simp [totalYielded]
    · rw [if_neg hstop]
      have htm : total < m := by
        by_contra hx
        exact hstop (by simp [stopMax]; omega)
      simp only
      by_cases hraw : (page (limitFor (some m) chunkSize total) offset).rows.isEmpty = true
      · rw [if_pos hraw]; simp [totalYielded]
      · rw [if_neg hraw]
        set limit := limitFor (some m) chunkSize total with hlim
        set chunk := applyDateFilter startD endD (page limit offset) with hchunk
        have hfle : chunk.rows.length ≤ limit :=
          le_trans (length_rows_applyDateFilter_le _ _ _) (hall limit offset)
        have hlimle : limit ≤ m - total := by
          rw [hlim]
          have he : limitFor (some m) chunkSize total =
              if m ≠ 0 then min chunkSize (m - total) else chunkSize := rfl
          rw [he, if_pos (by omega)]
          exact min_le_right _ _
        by_cases hemp : (chunk.rows.isEmpty && (startD.isSome || endD.isSome)) = true
        · rw [if_pos hemp]; simp [totalYielded]
        · rw [if_neg hemp]
          by_cases hlt : chunk.rows.length < limit
          · rw [if_pos hlt]
            simp only [totalYielded, List.map_cons, List.map_nil, List.sum_cons, List.sum_nil]
            omega
          · rw [if_neg hlt]
            simp only [totalYielded, List.map_cons, List.sum_cons]
            have hrec := ih (offset + chunkSize) (total + chunk.rows.length)
            simp only [totalYielded] at hrec
            omega

/-- Claim C4: with `max_rows = m` set, the chunk generator never yields more
than `m` rows in total, and while budget remains each per-call request limit is
`min(chunk_size, m - rows_already_counted)`. -/
theorem fetchChunks_total_le_maxRows (page : Nat → Nat → Batch) (chunkSize m fuel : Nat)
    (startD endD : Option Nat) (hall : ∀ l o, (page l o).rows.length ≤ l) :
    totalYielded (fetchChunks page chunkSize (some m) startD endD fuel 0 0) ≤ m ∧
    ∀ total, total < m → limitFor (some m) chunkSize total = min chunkSize (m - total) := by
  constructor
  · have h := fetchChunks_budget page chunkSize m startD endD hall fuel 0 0
    omega
  · intro total htm
    have he : limitFor (some m) chunkSize total =
        if m ≠ 0 then min chunkSize (m - total) else chunkSize := rfl
    rw [he, if_pos (by omega)]

/-- Witness for C4: the spec's `maxRows = 150`, `chunkSize = 100` scenario over
a source that honours the requested limit; after 100 counted rows the second
request's limit is 50. -/
theorem fetchChunks_total_le_maxRows_witness :
    totalYielded (fetchChunks (fun _ _ => emptyBatch) 100 (some 150) none none 10 0 0) ≤ 150 ∧
    limitFor (some 150) 100 100 = min 100 (150 - 100) :=
  ⟨(fetchChunks_total_le_maxRows (fun _ _ => emptyBatch) 100 150 10 none none
      (fun l o => by simp [emptyBatch])).1,
   (fetchChunks_total_le_maxRows (fun _ _ => emptyBatch) 100 150 10 none none
      (fun l o => by simp [emptyBatch])).2 100 (by omega)⟩

/-!  Claim C9: yielded chunks are never empty. -/

/-- Claim C9: every batch yielded by `fetch_data_chunked` is non-empty — an
empty raw page and a chunk emptied by the date filter both stop the generator
before any yield — so the orchestrator's stop-on-empty-chunk branch in
`_handle_fetch` can never be taken. -/
theorem fetchChunks_yields_nonempty (page : Nat → Nat → Batch) (chunkSize : Nat)
    (maxRows startD endD : Option Nat) :
    ∀ fuel offset total, ∀ b ∈ fetchChunks page chunkSize maxRows startD endD fuel offset total,
      b.rows ≠ [] := by
  intro fuel
  induction fuel with
  | zero => intro offset total b hb; simp [fetchChunks] at hb
  | succ k ih =>
    intro offset total b hb
    rw [fetchChunks] at hb
    by_cases hstop : stopMax maxRows total = true
    · rw [if_pos hstop] at hb; simp at hb
    · rw [if_neg hstop] at hb
      simp only at hb
      by_cases hraw : (page (limitFor maxRows chunkSize total) offset).rows.isEmpty = true
      · rw [if_pos hraw] at hb; simp at hb
      · rw [if_neg hraw] at hb
        set limit := limitFor maxRows chunkSize total with hlim
        set chunk := applyDateFilter startD endD (page limit offset) with hchunk
        have hne : chunk.rows ≠ [] := by
          by_cases hfil : (startD.isSome || endD.isSome) = true
          · by_contra hx
            have : (chunk.rows.isEmpty && (startD.isSome || endD.isSome)) = true := by
              simp [hx, hfil]
            rw [if_pos this] at hb
            simp at hb
          · have hfil' : (startD.isSome || endD.isSome) = false := by
              revert hfil; cases startD.isSome || endD.isSome <;> simp
            rw [hchunk, applyDateFilter_inactive _ _ _ hfil']
            intro hx
            exact hraw (by simp [hx])
        by_cases hemp : (chunk.rows.isEmpty && (startD.isSome || endD.isSome)) = true
        · rw [if_pos hemp] at hb; simp at hb
        · rw [if_neg hemp] at hb
          by_cases hlt : chunk.rows.length < limit
          · rw [if_pos hlt] at hb
            simp only [List.mem_singleton] at hb
            subst hb; exact hne
          · rw [if_neg hlt] at hb
            rcases List.mem_cons.mp hb with hb1 | hb2
            · subst hb1; exact hne
            · exact ih _ _ b hb2

/-- Witness for C9: the first chunk of a concrete run is non-empty. -/
theorem fetchChunks_yields_nonempty_witness :
    exPageLate.rows ≠ [] :=
  fetchChunks_yields_nonempty exSourceTwoPages 2 none none none 5 0 0 exPageLate (by decide)

/-!  Claim C3: what the end-of-data stop condition is decided on. -/

set_option maxRecDepth 8000 in
/-- Claim C3 counterexample: with a 2020-01-01 start-date filter and
`chunk_size = 2`, the source returns exactly 2 raw rows at offset 0 (equal to
the requested limit) and 2 more filter-passing rows at every later offset, yet
the generator yields exactly one batch: the stop test compares the post-filter
row count (1) against the limit, not the raw pre-filter count (2). -/
theorem fetchChunks_stops_on_postfilter_count :
    (exSourceFiltered 2 0).rows.length = 2 ∧
    (exSourceFiltered 2 2).rows.length = 2 ∧
    (fetchChunks exSourceFiltered 2 none (some (mkDateCode 2020 1 1)) none 5 0 0).length = 1 := by
  decide

/-- Claim C3 amended: the stop decision uses the post-filter yielded row count;
with no date filter active this coincides with the raw count, so a source
returning exactly `chunk_size` rows on the first call and fewer (but more than
zero) on the second makes the generator yield exactly two batches and stop. -/
theorem fetchChunks_two_pages_scenario (page : Nat → Nat → Batch) (cs fuel : Nat)
    (h1 : (page cs 0).rows.length = cs)
    (h2 : (page cs cs).rows.length < cs)
    (h2ne : (page cs cs).rows ≠ []) :
    fetchChunks page cs none none none (fuel + 2) 0 0 = [page cs 0, page cs cs] := by
  have hcs : 0 < cs := by omega
  have hne1 : (page cs 0).rows.isEmpty = false := by
    have : (page cs 0).rows ≠ [] := by
      intro hx
      rw [hx] at h1
      simp at h1
      omega
    revert this
    cases (page cs 0).rows <;> simp
  have hne2 : (page cs cs).rows.isEmpty = false := by
    revert h2ne
    cases (page cs cs).rows <;> simp
  rw [fetchChunks]
  rw [if_neg (by simp [stopMax])]
  simp only
  have hlim : limitFor none cs 0 = cs := rfl
  rw [hlim]
  rw [if_neg (by rw [hne1]; simp)]
  rw [applyDateFilter_inactive none none _ rfl]
  rw [if_neg (by simp)]
  rw [if_neg (by omega)]
  rw [fetchChunks]
  rw [if_neg (by simp [stopMax])]
  simp only
  have hlim2 : limitFor none cs (0 + (page cs 0).rows.length) = cs := rfl
  rw [hlim2]
  have hoff : 0 + cs = cs := by omega
  rw [hoff]
  rw [if_neg (by rw [hne2]; simp)]
  rw [applyDateFilter_inactive none none _ rfl]
  rw [if_neg (by simp)]
  rw [if_pos h2]

/-- Witness for the amended C3: a concrete source with a full first page of two
rows and a one-row second page yields exactly those two batches. -/
theorem fetchChunks_two_pages_scenario_witness :
    fetchChunks exSourceTwoPages 2 none none none 5 0 0 =
      [exSourceTwoPages 2 0, exSourceTwoPages 2 2] :=
  fetchChunks_two_pages_scenario exSourceTwoPages 2 3 (by decide) (by decide) (by decide)

/-!  Projection lemmas: the local dataframe computed by the state-tracking
pipeline is the plain pipeline. -/

theorem cur_stepIP (cond : Batch → Bool) (f : Batch → Batch) (s : PState) :
    (stepIP cond f s).cur = applyIf cond f s.cur := by
  unfold stepIP applyIf
  by_cases h : cond s.cur = true
  · rw [if_pos h, if_pos h]; rfl
  · rw [if_neg h, if_neg h]

theorem cur_stepRB (cond : Batch → Bool) (f : Batch → Batch) (s : PState) :
    (stepRB cond f s).cur = applyIf cond f s.cur := by
  unfold stepRB applyIf
  by_cases h : cond s.cur = true
  · rw [if_pos h, if_pos h]; rfl
  · rw [if_neg h, if_neg h]

theorem cur_stageStrListP (L : List String) (s : PState) :
    (stageStrListP L s).cur = stageStrList L s.cur := by
  induction L generalizing s with
  | nil => rfl
  | cons c L ih =>
    unfold stageStrListP stageStrList
    simp only [List.foldl_cons]
    have h1 := ih (stepIP (hasCol c) (setColB c strClean) s)
    unfold stageStrListP stageStrList at h1
    rw [h1, cur_stepIP]

theorem cur_cleanPipelineP (s : PState) : (cleanPipelineP s).cur = cleanLocal s.cur := by
  unfold cleanPipelineP cleanLocal stageProcP stageProc stageLocP stageLoc stageNumP stageNum
    stageDateP stageDate
  rw [cur_stepIP, cur_stepRB, cur_stepRB, cur_stageStrListP, cur_stepIP, cur_stepIP,
    cur_stepRB, cur_stepIP]

theorem clean_eq_cleanLocal (b : Batch) :
    clean_and_transform b = if b.rows.isEmpty then b else cleanLocal b := by
  unfold clean_and_transform cleanRun
  by_cases h : b.rows.isEmpty = true
  · rw [if_pos h, if_pos h]
  · rw [if_neg h, if_neg h]
    exact cur_cleanPipelineP _

/-!  Caller-object tracking lemmas. -/

theorem unaliased_stepIP (cond : Batch → Bool) (f : Batch → Batch) (s : PState)
    (h : s.aliased = false) :
    (stepIP cond f s).caller = s.caller ∧ (stepIP cond f s).aliased = false := by
  unfold stepIP inPlace
  by_cases hc : cond s.cur = true
  · rw [if_pos hc]
    simp [h]
  · rw [if_neg hc]
    exact ⟨rfl, h⟩

theorem unaliased_stepRB (cond : Batch → Bool) (f : Batch → Batch) (s : PState)
    (h : s.aliased = false) :
    (stepRB cond f s).caller = s.caller ∧ (stepRB cond f s).aliased = false := by
  unfold stepRB rebind
  by_cases hc : cond s.cur = true
  · rw [if_pos hc]
    exact ⟨rfl, rfl⟩
  · rw [if_neg hc]
    exact ⟨rfl, h⟩

theorem unaliased_stageStrListP (L : List String) (s : PState) (h : s.aliased = false) :
    (stageStrListP L s).caller = s.caller ∧ (stageStrListP L s).aliased = false := by
  induction L generalizing s with
  | nil => exact ⟨rfl, h⟩
  | cons c L ih =>
    unfold stageStrListP
    simp only [List.foldl_cons]
    have hstep := unaliased_stepIP (hasCol c) (setColB c strClean) s h
    have hrest := ih (stepIP (hasCol c) (setColB c strClean) s) hstep.2
    unfold stageStrListP at hrest
    exact ⟨hrest.1.trans hstep.1, hrest.2⟩

theorem unaliased_tail (s : PState) (h : s.aliased = false) :
    (stageProcP (stageLocP (stageStrListP strCols (stageNumP s)))).caller = s.caller := by
  unfold stageNumP stageLocP stageProcP
  have h1 := unaliased_stepIP (hasCol "case_positive_specimen_interval")
    (setColB "case_positive_specimen_interval" coerceInt) s h
  have h2 := unaliased_stepIP (hasCol "case_onset_interval")
    (setColB "case_onset_interval" coerceInt) _ h1.2
  have h3 := unaliased_stageStrListP strCols _ h2.2
  have h4 := unaliased_stepRB (hasCol "res_state") (dropNullRows "res_state") _ h3.2
  have h5 := unaliased_stepRB (hasCol "state_fips_code") (dropNullRows "state_fips_code") _ h4.2
  have h6 := unaliased_stepIP (fun x => !hasCol "process" x)
    (setColB "process" (fun _ => .vStr "Unknown")) _ h5.2
  rw [h6.1, h5.1, h4.1, h3.1, h2.1, h1.1]

theorem cols_setColB_mem (c : String) (f : Val → Val) (b : Batch) (h : c ∈ b.cols) :
    (setColB c f b).cols = b.cols := by
  unfold setColB
  simp only
  rw [if_pos h]

/-!  Claim C7: what the caller's batch object looks like after the call. -/

set_option maxRecDepth 8000 in
/-- Claim C7 counterexample: `clean_and_transform` is not pure with respect to
the caller's object: on a batch with a parsable `case_month` string the
caller's dataframe is mutated in place (its `case_month` column is converted to
a date) before the first `dropna` rebinds the local name. -/
theorem clean_mutates_caller_batch :
    callerBatchAfter exBatchDate ≠ exBatchDate := by decide

/-- Claim C7 amended: `clean_and_transform` mutates the caller's batch in
place: when the `case_month` column is present on a non-empty batch, the
caller's object afterwards equals the input with `case_month` coerced to dates
(the later steps run on a fresh object created by the first `dropna`). -/
theorem caller_sees_case_month_coercion (b : Batch)
    (h1 : hasCol "case_month" b = true) (h2 : b.rows.isEmpty = false) :
    callerBatchAfter b = setColB "case_month" parseDate b := by
  unfold callerBatchAfter cleanRun
  rw [if_neg (by rw [h2]; simp)]
  have hmem : "case_month" ∈ b.cols := by
    have := of_decide_eq_true h1
    exact this
  have hd : stageDateP { cur := b, caller := b, aliased := true } =
      { cur := dropNullRows "case_month" (setColB "case_month" parseDate b),
        caller := setColB "case_month" parseDate b, aliased := false } := by
    unfold stageDateP stepIP stepRB inPlace rebind
    rw [if_pos h1]
    simp only
    have hcols : hasCol "case_month" (setColB "case_month" parseDate b) = true := by
      unfold hasCol
      rw [cols_setColB_mem _ _ _ hmem]
      exact h1
    rw [if_pos hcols]
    simp
  unfold cleanPipelineP
  rw [hd]
  exact unaliased_tail _ rfl

/-- Witness for the amended C7: on the concrete one-row batch the caller's
object afterwards is the date-coerced input. -/
theorem caller_sees_case_month_coercion_witness :
    callerBatchAfter exBatchDate = setColB "case_month" parseDate exBatchDate :=
  caller_sees_case_month_coercion exBatchDate (by decide) (by decide)

/-!  Claim C1 and C8 counterexamples. -/

set_option maxRecDepth 8000 in
/-- Claim C1 counterexample: the only input row has a null `res_state` (with
`state_fips_code` present and non-null), yet it is not dropped: it survives
into the transform output with `'Unknown'` substituted, because the fillna
step runs before the location dropna and leaves nothing null to drop. -/
theorem clean_keeps_null_res_state_row :
    getVal exRowNullState "res_state" = .vNull ∧
    (clean_and_transform exBatchNullState).rows.length = 1 ∧
    ((clean_and_transform exBatchNullState).rows.map (fun r => getVal r "res_state")) =
      [.vStr "Unknown"] := by decide

set_option maxRecDepth 8000 in
/-- Claim C8 counterexample: an interval cell holding the string `-3` is
coerced to the negative integer −3 in the transform output; nothing enforces
non-negativity. -/
theorem clean_keeps_negative_interval :
    ((clean_and_transform exBatchNegInterval).rows.map
      (fun r => getVal r "case_positive_specimen_interval")) = [.vInt (-3)] := by decide

/-!  Row-level lemmas about `rowGet` and `setVal`. -/

theorem rowGet_eq_none_forall (r : Row) (c : String) (h : rowGet r c = none) :
    ∀ p ∈ r, p.1 ≠ c := by
  induction r with
  | nil => intro p hp; simp at hp
  | cons q rest ih =>
    intro p hp
    rw [rowGet] at h
    by_cases hq : q.1 = c
    · rw [if_pos hq] at h; simp at h
    · rw [if_neg hq] at h
      rcases List.mem_cons.mp hp with h1 | h2
      · subst h1; exact hq
      · exact ih h p h2

theorem rowGet_append (r1 r2 : Row) (c : String) :
    rowGet (r1 ++ r2) c =
      match rowGet r1 c with
      | some v => some v
      | none => rowGet r2 c := by
  induction r1 with
  | nil => simp [rowGet]
  | cons q rest ih =>
    simp only [List.cons_append, rowGet]
    by_cases hq : q.1 = c
    · rw [if_pos hq, if_pos hq]
    · rw [if_neg hq, if_neg hq]
      exact ih

theorem rowGet_map_ne (r : Row) (c c' : String) (v : Val) (h : c' ≠ c) :
    rowGet (r.map (fun p => if p.1 = c then (c, v) else p)) c' = rowGet r c' := by
  induction r with
  | nil => rfl
  | cons q rest ih =>
    simp only [List.map_cons, rowGet]
    by_cases hq : q.1 = c
    · rw [if_pos hq]
      show (if c = c' then some v else _) = _
      rw [if_neg (fun hx => h hx.symm), if_neg (by rw [hq]; exact fun hx => h hx.symm)]
      exact ih
    · rw [if_neg hq]
      show (if q.1 = c' then some q.2 else _) = _
      by_cases hq' : q.1 = c'
      · rw [if_pos hq', if_pos hq']
      · rw [if_neg hq', if_neg hq']
        exact ih

theorem rowGet_setVal_ne (r : Row) (c c' : String) (v : Val) (h : c' ≠ c) :
    rowGet (setVal r c v) c' = rowGet r c' := by
  unfold setVal
  by_cases hs : (rowGet r c).isSome = true
  · rw [if_pos hs]
    exact rowGet_map_ne r c c' v h
  · rw [if_neg hs]
    rw [rowGet_append]
    cases hr : rowGet r c' with
    | some w => rfl
    | none =>
      show rowGet [(c, v)] c' = none
      unfold rowGet
      rw [if_neg (fun hx => h hx.symm)]
      rfl

theorem getVal_setVal_ne (r : Row) (c c' : String) (v : Val) (h : c' ≠ c) :
    getVal (setVal r c v) c' = getVal r c' := by
  unfold getVal
  rw [rowGet_setVal_ne r c c' v h]

theorem rowGet_map_self (r : Row) (c : String) (v : Val) (h : (rowGet r c).isSome = true) :
    rowGet (r.map (fun p => if p.1 = c then (c, v) else p)) c = some v := by
  induction r with
  | nil => simp [rowGet] at h
  | cons q rest ih =>
    simp only [List.map_cons, rowGet]
    by_cases hq : q.1 = c
    · rw [if_pos hq]
      show (if c = c then some v else _) = _
      rw [if_pos rfl]
    · rw [if_neg hq]
      show (if q.1 = c then some q.2 else _) = _
      rw [if_neg hq]
      apply ih
      rw [rowGet] at h
      rw [if_neg hq] at h
      exact h

theorem rowGet_setVal_self (r : Row) (c : String) (v : Val) :
    rowGet (setVal r c v) c = some v := by
  unfold setVal
  by_cases hs : (rowGet r c).isSome = true
  · rw [if_pos hs]
    exact rowGet_map_self r c v hs
  · rw [if_neg hs]
    rw [rowGet_append]
    have hr : rowGet r c = none := by
      revert hs; cases rowGet r c <;> simp
    rw [hr]
    show rowGet [(c, v)] c = some v
    unfold rowGet
    rw [if_pos rfl]

theorem setVal_eq_self (r : Row) (c : String) (v : Val) (h1 : rowGet r c = some v)
    (h2 : ∀ p ∈ r, p.1 = c → p.2 = v) : setVal r c v = r := by
  unfold setVal
  rw [if_pos (by rw [h1]; rfl)]
  apply list_map_id_of
  intro p hp
  by_cases hq : p.1 = c
  · rw [if_pos hq]
    rw [← hq, ← h2 p hp hq]
  · rw [if_neg hq]

/-!  Row-level invariants used to show a second transformer pass is a no-op. -/

/-- A row is fixed for column `c` under cell transform `f`: the column is bound,
every binding for it carries the same value, and that value is an `f` fixed
point. -/
def ColFixedRow (c : String) (f : Val → Val) (r : Row) : Prop :=
  ∃ v, rowGet r c = some v ∧ f v = v ∧ ∀ p ∈ r, p.1 = c → p.2 = v

/-- A row's cell at `c` is not null. -/
def ColNonNullRow (c : String) (r : Row) : Prop := getVal r c ≠ .vNull

/-- A row predicate that survives writes to a different column. -/
def RowPredStable (P : Row → Prop) (c' : String) : Prop :=
  ∀ r w, P r → P (setVal r c' w)

theorem colFixedRow_of_setVal (r : Row) (c : String) (f : Val → Val)
    (hf : ∀ w, f (f w) = f w) : ColFixedRow c f (setVal r c (f (getVal r c))) := by
  refine ⟨f (getVal r c), rowGet_setVal_self _ _ _, hf _, ?_⟩
  intro p hp hpc
  unfold setVal at hp
  by_cases hs : (rowGet r c).isSome = true
  · rw [if_pos hs] at hp
    rcases List.mem_map.mp hp with ⟨q, hq, hqe⟩
    by_cases hqc : q.1 = c
    · rw [if_pos hqc] at hqe
      rw [← hqe]
    · rw [if_neg hqc] at hqe
      rw [← hqe] at hpc
      exact absurd hpc hqc
  · rw [if_neg hs] at hp
    have hnone : rowGet r c = none := by
      revert hs; cases rowGet r c <;> simp
    rcases List.mem_append.mp hp with h1 | h2
    · exact absurd hpc (rowGet_eq_none_forall r c hnone p h1)
    · simp at h2
      rw [h2]

theorem colFixedRow_stable (c c' : String) (f : Val → Val) (h : c ≠ c') :
    RowPredStable (ColFixedRow c f) c' := by
  intro r w hr
  rcases hr with ⟨v, hget, hfix, hall⟩
  refine ⟨v, ?_, hfix, ?_⟩
  · rw [rowGet_setVal_ne r c' c w (fun hx => h hx)]
    exact hget
  · intro p hp hpc
    unfold setVal at hp
    by_cases hs : (rowGet r c').isSome = true
    · rw [if_pos hs] at hp
      rcases List.mem_map.mp hp with ⟨q, hq, hqe⟩
      by_cases hqc : q.1 = c'
      · rw [if_pos hqc] at hqe
        rw [← hqe] at hpc
        exact absurd hpc.symm h
      · rw [if_neg hqc] at hqe
        rw [← hqe]
        exact hall q hq (by rw [hqe]; exact hpc)
    · rw [if_neg hs] at hp
      rcases List.mem_append.mp hp with h1 | h2
      · exact hall p h1 hpc
      · simp at h2
        rw [h2] at hpc
        simp at hpc
        exact absurd hpc.symm h

theorem colNonNullRow_stable (c c' : String) (h : c ≠ c') :
    RowPredStable (ColNonNullRow c) c' := by
  intro r w hr
  unfold ColNonNullRow
  rw [getVal_setVal_ne r c' c w (fun hx => h hx)]
  exact hr

/-!  Idempotence of the cell transforms. -/

theorem parseDate_idem (v : Val) : parseDate (parseDate v) = parseDate v := by
  cases v with
  | vDate d => rfl
  | vNull => rfl
  | vInt n => rfl
  | vStr s =>
    show parseDate (match parseDateStr s with | some d => Val.vDate d | none => Val.vNull) =
      (match parseDateStr s with | some d => Val.vDate d | none => Val.vNull)
    cases parseDateStr s with
    | some d => rfl
    | none => rfl

theorem coerceInt_idem (v : Val) : coerceInt (coerceInt v) = coerceInt v := by
  cases v <;> rfl

theorem dropWhile_dropWhile (p : Char → Bool) (l : List Char) :
    (l.dropWhile p).dropWhile p = l.dropWhile p := by
  induction l with
  | nil => rfl
  | cons a l ih =>
    by_cases h : p a = true
    · rw [List.dropWhile_cons, if_pos h]
      exact ih
    · rw [List.dropWhile_cons, if_neg h, List.dropWhile_cons, if_neg h]

theorem dropWhile_sfx (p : Char → Bool) (l : List Char) : ∃ t, t ++ l.dropWhile p = l := by
  induction l with
  | nil => exact ⟨[], rfl⟩
  | cons a l ih =>
    by_cases h : p a = true
    · rcases ih with ⟨t, ht⟩
      refine ⟨a :: t, ?_⟩
      rw [List.dropWhile_cons, if_pos h, List.cons_append, ht]
    · refine ⟨[], ?_⟩
      rw [List.dropWhile_cons, if_neg h, List.nil_append]

theorem dropWhile_eq_self_of_prefix (p : Char → Bool) (l1 l2 : List Char)
    (hpre : ∃ t, l1 ++ t = l2) (h : l2.dropWhile p = l2) : l1.dropWhile p = l1 := by
  rcases hpre with ⟨t, ht⟩
  cases l1 with
  | nil => rfl
  | cons a r =>
    have hpa : p a = false := by
      rw [← ht, List.cons_append, List.dropWhile_cons] at h
      by_cases hx : p a = true
      · rw [if_pos hx] at h
        have hlen := congrArg List.length h
        rcases dropWhile_sfx p (r ++ t) with ⟨u, hu⟩
        have hle := congrArg List.length hu
        simp only [List.length_append, List.length_cons] at hlen hle
        omega
      · revert hx; cases p a <;> simp
    rw [List.dropWhile_cons, if_neg (by rw [hpa]; simp)]

theorem stripChars_idem (l : List Char) : stripChars (stripChars l) = stripChars l := by
  unfold stripChars
  have h1 : ((((l.dropWhile isWS).reverse.dropWhile isWS).reverse).dropWhile isWS) =
      ((l.dropWhile isWS).reverse.dropWhile isWS).reverse := by
    apply dropWhile_eq_self_of_prefix isWS _ (l.dropWhile isWS)
    · rcases dropWhile_sfx isWS (l.dropWhile isWS).reverse with ⟨t, ht⟩
      refine ⟨t.reverse, ?_⟩
      have h2 := congrArg List.reverse ht
      rw [List.reverse_append, List.reverse_reverse] at h2
      exact h2
    · exact dropWhile_dropWhile isWS l
  rw [h1, List.reverse_reverse, dropWhile_dropWhile]

theorem stripStr_idem (s : String) : stripStr (stripStr s) = stripStr s := by
  show String.mk (stripChars (stripChars s.data)) = String.mk (stripChars s.data)
  rw [stripChars_idem]

theorem strClean_idem (v : Val) : strClean (strClean v) = strClean v := by
  cases v with
  | vNull =>
    show Val.vStr (stripStr "Unknown") = Val.vStr "Unknown"
    rfl
  | vStr s =>
    show Val.vStr (stripStr (stripStr s)) = Val.vStr (stripStr s)
    rw [stripStr_idem]
  | vInt n =>
    show Val.vStr (stripStr (stripStr (toString n))) = Val.vStr (stripStr (toString n))
    rw [stripStr_idem]
  | vDate d =>
    show Val.vStr (stripStr (stripStr (dateCodeToStr d))) = Val.vStr (stripStr (dateCodeToStr d))
    rw [stripStr_idem]

/-!  Batch-level invariant propagation. -/

/-- Every row of the batch satisfies the predicate. -/
def AllRows (P : Row → Prop) (b : Batch) : Prop := ∀ r ∈ b.rows, P r

theorem allRows_setColB (P : Row → Prop) (c' : String) (g : Val → Val) (b : Batch)
    (h : RowPredStable P c') (hb : AllRows P b) : AllRows P (setColB c' g b) := by
  intro r hr
  unfold setColB at hr
  simp only at hr
  rcases List.mem_map.mp hr with ⟨q, hq, hqe⟩
  rw [← hqe]
  exact h q _ (hb q hq)

theorem allRows_dropNullRows (P : Row → Prop) (c' : String) (b : Batch)
    (hb : AllRows P b) : AllRows P (dropNullRows c' b) := by
  intro r hr
  unfold dropNullRows at hr
  simp only at hr
  exact hb r (List.mem_filter.mp hr).1

theorem allRows_applyIf_setColB (P : Row → Prop) (cond : Batch → Bool) (c' : String)
    (g : Val → Val) (b : Batch) (h : RowPredStable P c') (hb : AllRows P b) :
    AllRows P (applyIf cond (setColB c' g) b) := by
  unfold applyIf
  by_cases hc : cond b = true
  · rw [if_pos hc]
    exact allRows_setColB P c' g b h hb
  · rw [if_neg hc]
    exact hb

theorem allRows_applyIf_dropNull (P : Row → Prop) (cond : Batch → Bool) (c' : String)
    (b : Batch) (hb : AllRows P b) : AllRows P (applyIf cond (dropNullRows c') b) := by
  unfold applyIf
  by_cases hc : cond b = true
  · rw [if_pos hc]
    exact allRows_dropNullRows P c' b hb
  · rw [if_neg hc]
    exact hb

theorem allRows_stageDate (P : Row → Prop) (b : Batch)
    (h : RowPredStable P "case_month") (hb : AllRows P b) : AllRows P (stageDate b) :=
  allRows_applyIf_dropNull P _ _ _ (allRows_applyIf_setColB P _ _ _ b h hb)

theorem allRows_stageNum (P : Row → Prop) (b : Batch)
    (h1 : RowPredStable P "case_positive_specimen_interval")
    (h2 : RowPredStable P "case_onset_interval") (hb : AllRows P b) :
    AllRows P (stageNum b) :=
  allRows_applyIf_setColB P _ _ _ _ h2 (allRows_applyIf_setColB P _ _ _ b h1 hb)

theorem allRows_stageStrList (P : Row → Prop) (L : List String) (b : Batch)
    (h : ∀ c' ∈ L, RowPredStable P c') (hb : AllRows P b) : AllRows P (stageStrList L b) := by
  induction L generalizing b with
  | nil => exact hb
  | cons c L ih =>
    unfold stageStrList
    simp only [List.foldl_cons]
    have hstep := allRows_applyIf_setColB P (hasCol c) c strClean b (h c (by simp)) hb
    have := ih _ (fun c' hc' => h c' (by simp [hc'])) hstep
    unfold stageStrList at this
    exact this

theorem allRows_stageLoc (P : Row → Prop) (b : Batch) (hb : AllRows P b) :
    AllRows P (stageLoc b) :=
  allRows_applyIf_dropNull P _ _ _ (allRows_applyIf_dropNull P _ _ b hb)

theorem allRows_stageProc (P : Row → Prop) (b : Batch)
    (h : RowPredStable P "process") (hb : AllRows P b) : AllRows P (stageProc b) :=
  allRows_applyIf_setColB P _ _ _ b h hb

theorem allRows_setColB_self (c : String) (f : Val → Val) (b : Batch)
    (hf : ∀ w, f (f w) = f w) : AllRows (ColFixedRow c f) (setColB c f b) := by
  intro r hr
  unfold setColB at hr
  simp only at hr
  rcases List.mem_map.mp hr with ⟨q, _, hqe⟩
  rw [← hqe]
  exact colFixedRow_of_setVal q c f hf

theorem allRows_dropNullRows_self (c : String) (b : Batch) :
    AllRows (ColNonNullRow c) (dropNullRows c b) := by
  intro r hr
  unfold dropNullRows at hr
  simp only at hr
  have h2 := (List.mem_filter.mp hr).2
  unfold ColNonNullRow
  simp at h2
  exact h2

theorem allRows_applyIf_setColB_self (c : String) (f : Val → Val) (b : Batch)
    (h : hasCol c b = true) (hf : ∀ w, f (f w) = f w) :
    AllRows (ColFixedRow c f) (applyIf (hasCol c) (setColB c f) b) := by
  unfold applyIf
  rw [if_pos h]
  exact allRows_setColB_self c f b hf

theorem allRows_applyIf_dropNull_self (c : String) (b : Batch) (h : hasCol c b = true) :
    AllRows (ColNonNullRow c) (applyIf (hasCol c) (dropNullRows c) b) := by
  unfold applyIf
  rw [if_pos h]
  exact allRows_dropNullRows_self c b

/-!  Column-list tracking through the pipeline. -/

theorem cols_applyIf_setColB (c : String) (f : Val → Val) (b : Batch) :
    (applyIf (hasCol c) (setColB c f) b).cols = b.cols := by
  unfold applyIf
  by_cases h : hasCol c b = true
  · rw [if_pos h]
    exact cols_setColB_mem c f b (of_decide_eq_true h)
  · rw [if_neg h]

theorem cols_applyIf_dropNull (cond : Batch → Bool) (c : String) (b : Batch) :
    (applyIf cond (dropNullRows c) b).cols = b.cols := by
  unfold applyIf
  by_cases h : cond b = true
  · rw [if_pos h]; rfl
  · rw [if_neg h]

theorem cols_stageDate (b : Batch) : (stageDate b).cols = b.cols := by
  unfold stageDate
  rw [cols_applyIf_dropNull, cols_applyIf_setColB]

theorem cols_stageNum (b : Batch) : (stageNum b).cols = b.cols := by
  unfold stageNum
  rw [cols_applyIf_setColB, cols_applyIf_setColB]

theorem cols_stageStrList (L : List String) (b : Batch) : (stageStrList L b).cols = b.cols := by
  induction L generalizing b with
  | nil => rfl
  | cons c L ih =>
    unfold stageStrList
    simp only [List.foldl_cons]
    have h1 := ih (applyIf (hasCol c) (setColB c strClean) b)
    unfold stageStrList at h1
    rw [h1, cols_applyIf_setColB]

theorem cols_stageLoc (b : Batch) : (stageLoc b).cols = b.cols := by
  unfold stageLoc
  rw [cols_applyIf_dropNull, cols_applyIf_dropNull]

theorem mem_cols_stageProc (x : String) (b : Batch) (hx : x ≠ "process") :
    x ∈ (stageProc b).cols ↔ x ∈ b.cols := by
  unfold stageProc applyIf
  by_cases h : (!hasCol "process" b) = true
  · rw [if_pos h]
    have hmem : "process" ∉ b.cols := by
      simpa [hasCol] using h
    unfold setColB
    simp only
    rw [if_neg hmem]
    simp [hx]
  · rw [if_neg h]

theorem process_mem_stageProc (b : Batch) : "process" ∈ (stageProc b).cols := by
  unfold stageProc applyIf
  by_cases h : (!hasCol "process" b) = true
  · rw [if_pos h]
    have hmem : "process" ∉ b.cols := by
      simpa [hasCol] using h
    unfold setColB
    simp only
    rw [if_neg hmem]
    simp
  · rw [if_neg h]
    have h2 : hasCol "process" b = true := by
      revert h; cases hasCol "process" b <;> simp
    exact of_decide_eq_true h2

theorem hasCol_cleanLocal (x : String) (b : Batch) (hx : x ≠ "process") :
    hasCol x (cleanLocal b) = hasCol x b := by
  unfold cleanLocal hasCol
  apply decide_eq_decide.mpr
  rw [mem_cols_stageProc x _ hx]
  rw [cols_stageLoc, cols_stageStrList, cols_stageNum, cols_stageDate]

/-!  Invariants of the cleaned batch. -/

theorem stageDate_eq (b : Batch) (h : hasCol "case_month" b = true) :
    stageDate b = dropNullRows "case_month" (setColB "case_month" parseDate b) := by
  unfold stageDate applyIf
  rw [if_pos h]
  have h2 : hasCol "case_month" (setColB "case_month" parseDate b) = true := by
    unfold hasCol
    rw [cols_setColB_mem _ _ _ (of_decide_eq_true h)]
    exact h
  rw [if_pos h2]

theorem stable_all_strCols (c : String) (f : Val → Val) (hc : c ∉ strCols) :
    ∀ c' ∈ strCols, RowPredStable (ColFixedRow c f) c' := by
  intro c' hc'
  apply colFixedRow_stable
  intro hx
  rw [hx] at hc
  exact hc hc'

theorem hasCol_eq_of_cols (x : String) (b1 b2 : Batch) (h : b1.cols = b2.cols) :
    hasCol x b1 = hasCol x b2 := by
  unfold hasCol
  rw [h]

theorem inv_cm (b : Batch) (h : hasCol "case_month" b = true) :
    AllRows (ColFixedRow "case_month" parseDate) (cleanLocal b) ∧
    AllRows (ColNonNullRow "case_month") (cleanLocal b) := by
  unfold cleanLocal
  rw [stageDate_eq b h]
  constructor
  · apply allRows_stageProc (ColFixedRow "case_month" parseDate) _
      (colFixedRow_stable "case_month" "process" parseDate (by decide))
    apply allRows_stageLoc
    apply allRows_stageStrList _ _ _ (stable_all_strCols "case_month" parseDate (by decide))
    apply allRows_stageNum _ _
      (colFixedRow_stable "case_month" "case_positive_specimen_interval" parseDate (by decide))
      (colFixedRow_stable "case_month" "case_onset_interval" parseDate (by decide))
    exact allRows_dropNullRows _ _ _ (allRows_setColB_self _ _ _ parseDate_idem)
  · have hstab : ∀ c' ∈ strCols, RowPredStable (ColNonNullRow "case_month") c' := by
      intro c' hc'
      apply colNonNullRow_stable "case_month" c'
      intro hx
      rw [← hx] at hc'
      revert hc'
      decide
    apply allRows_stageProc (ColNonNullRow "case_month") _
      (colNonNullRow_stable "case_month" "process" (by decide))
    apply allRows_stageLoc
    apply allRows_stageStrList _ _ _ hstab
    apply allRows_stageNum _ _
      (colNonNullRow_stable "case_month" "case_positive_specimen_interval" (by decide))
      (colNonNullRow_stable "case_month" "case_onset_interval" (by decide))
    exact allRows_dropNullRows_self _ _

theorem inv_tail (b : Batch) (c : String) (f : Val → Val) (hnotstr : c ∉ strCols)
    (hne : c ≠ "process")
    (hbase : AllRows (ColFixedRow c f) (stageNum (stageDate b))) :
    AllRows (ColFixedRow c f) (cleanLocal b) := by
  unfold cleanLocal
  apply allRows_stageProc (ColFixedRow c f) _ (colFixedRow_stable c "process" f hne)
  apply allRows_stageLoc
  exact allRows_stageStrList _ _ _ (stable_all_strCols c f hnotstr) hbase

theorem inv_num (b : Batch) (c : String)
    (hc : c = "case_positive_specimen_interval" ∨ c = "case_onset_interval")
    (h : hasCol c b = true) : AllRows (ColFixedRow c coerceInt) (cleanLocal b) := by
  rcases hc with rfl | rfl
  · apply inv_tail b _ coerceInt (by decide) (by decide)
    unfold stageNum
    apply allRows_applyIf_setColB _ _ _ _ _
      (colFixedRow_stable "case_positive_specimen_interval" "case_onset_interval" coerceInt
        (by decide))
    apply allRows_applyIf_setColB_self _ _ _ ?hg1 coerceInt_idem
    case hg1 =>
      rw [hasCol_eq_of_cols _ _ _ (cols_stageDate b)]
      exact h
  · apply inv_tail b _ coerceInt (by decide) (by decide)
    unfold stageNum
    apply allRows_applyIf_setColB_self _ _ _ ?hg2 coerceInt_idem
    case hg2 =>
      rw [hasCol_eq_of_cols _ _ _ (cols_applyIf_setColB _ _ _)]
      rw [hasCol_eq_of_cols _ _ _ (cols_stageDate b)]
      exact h

theorem stageStrList_establishes (c : String) :
    ∀ L : List String, L.Nodup → c ∈ L → ∀ b : Batch, hasCol c b = true →
      AllRows (ColFixedRow c strClean) (stageStrList L b) := by
  intro L
  induction L with
  | nil => intro _ hc; simp at hc
  | cons c0 L ih =>
    intro hnd hc b h
    unfold stageStrList
    simp only [List.foldl_cons]
    by_cases hcc : c = c0
    · subst hcc
      have hstep : applyIf (hasCol c) (setColB c strClean) b = setColB c strClean b := by
        unfold applyIf
        rw [if_pos h]
      rw [hstep]
      have hest : AllRows (ColFixedRow c strClean) (setColB c strClean b) :=
        allRows_setColB_self c strClean b strClean_idem
      have hnotin : c ∉ L := (List.nodup_cons.mp hnd).1
      have hpres : ∀ c' ∈ L, RowPredStable (ColFixedRow c strClean) c' := by
        intro c' hc'
        apply colFixedRow_stable
        intro hx
        rw [hx] at hnotin
        exact hnotin hc'
      have h2 := allRows_stageStrList _ L _ hpres hest
      unfold stageStrList at h2
      exact h2
    · have hcL : c ∈ L := by
        rcases List.mem_cons.mp hc with h1 | h2
        · exact absurd h1 hcc
        · exact h2
      have hcols : hasCol c (applyIf (hasCol c0) (setColB c0 strClean) b) = true := by
        rw [hasCol_eq_of_cols c _ b (cols_applyIf_setColB c0 strClean b)]
        exact h
      have h2 := ih (List.nodup_cons.mp hnd).2 hcL _ hcols
      unfold stageStrList at h2
      exact h2

theorem inv_str (b : Batch) (c : String) (hc : c ∈ strCols) (h : hasCol c b = true) :
    AllRows (ColFixedRow c strClean) (cleanLocal b) := by
  unfold cleanLocal
  have h2 : hasCol c (stageNum (stageDate b)) = true := by
    unfold hasCol
    rw [cols_stageNum, cols_stageDate]
    exact h
  have hest := stageStrList_establishes c strCols (by decide) hc _ h2
  apply allRows_stageProc _ _ (colFixedRow_stable _ _ _ ?hp)
  apply allRows_stageLoc
  exact hest
  case hp =>
    intro hx
    rw [hx] at hc
    revert hc
    decide

theorem inv_fips (b : Batch) (h : hasCol "state_fips_code" b = true) :
    AllRows (ColNonNullRow "state_fips_code") (cleanLocal b) := by
  unfold cleanLocal
  have h3 : hasCol "state_fips_code"
      (applyIf (hasCol "res_state") (dropNullRows "res_state")
        (stageStrList strCols (stageNum (stageDate b)))) = true := by
    unfold hasCol
    rw [cols_applyIf_dropNull, cols_stageStrList, cols_stageNum, cols_stageDate]
    exact h
  apply allRows_stageProc _ _ (colNonNullRow_stable _ _ (by decide))
  unfold stageLoc
  exact allRows_applyIf_dropNull_self _ _ h3

/-!  A second transformer pass is the identity on cleaned batches. -/

theorem applyIf_cond_false (cond : Batch → Bool) (f : Batch → Batch) (b : Batch)
    (h : cond b = false) : applyIf cond f b = b := by
  unfold applyIf
  rw [h]
  simp

theorem setColB_eq_self (c : String) (f : Val → Val) (b : Batch) (hmem : c ∈ b.cols)
    (h : AllRows (ColFixedRow c f) b) : setColB c f b = b := by
  cases b with
  | mk cols rows =>
    unfold setColB
    simp only [Batch.mk.injEq]
    constructor
    · rw [if_pos hmem]
    · apply list_map_id_of
      intro r hr
      rcases h r hr with ⟨v, hget, hfix, hall⟩
      have hgv : getVal r c = v := by
        unfold getVal
        rw [hget]
        rfl
      rw [hgv, hfix]
      exact setVal_eq_self r c v hget hall

theorem dropNullRows_eq_self (c : String) (b : Batch) (h : AllRows (ColNonNullRow c) b) :
    dropNullRows c b = b := by
  cases b with
  | mk cols rows =>
    unfold dropNullRows
    simp only [Batch.mk.injEq]
    refine ⟨trivial, ?_⟩
    apply list_filter_id_of
    intro r hr
    have h2 := h r hr
    unfold ColNonNullRow at h2
    simp [h2]

theorem applyIf_setColB_eq_self (c : String) (f : Val → Val) (b : Batch)
    (h : hasCol c b = true → AllRows (ColFixedRow c f) b) :
    applyIf (hasCol c) (setColB c f) b = b := by
  unfold applyIf
  by_cases hc : hasCol c b = true
  · rw [if_pos hc]
    exact setColB_eq_self c f b (of_decide_eq_true hc) (h hc)
  · rw [if_neg hc]

theorem applyIf_dropNull_eq_self (cond : Batch → Bool) (c : String) (b : Batch)
    (h : AllRows (ColNonNullRow c) b) : applyIf cond (dropNullRows c) b = b := by
  unfold applyIf
  by_cases hc : cond b = true
  · rw [if_pos hc]
    exact dropNullRows_eq_self c b h
  · rw [if_neg hc]

theorem stageDate_eq_self (b : Batch)
    (h : hasCol "case_month" b = true →
      AllRows (ColFixedRow "case_month" parseDate) b ∧ AllRows (ColNonNullRow "case_month") b) :
    stageDate b = b := by
  unfold stageDate
  rw [applyIf_setColB_eq_self _ _ _ (fun hc => (h hc).1)]
  by_cases hc : hasCol "case_month" b = true
  · exact applyIf_dropNull_eq_self _ _ _ (h hc).2
  · apply applyIf_cond_false
    revert hc
    cases hasCol "case_month" b <;> simp

theorem stageNum_eq_self (b : Batch)
    (h1 : hasCol "case_positive_specimen_interval" b = true →
      AllRows (ColFixedRow "case_positive_specimen_interval" coerceInt) b)
    (h2 : hasCol "case_onset_interval" b = true →
      AllRows (ColFixedRow "case_onset_interval" coerceInt) b) :
    stageNum b = b := by
  unfold stageNum
  rw [applyIf_setColB_eq_self _ _ _ h1]
  rw [applyIf_setColB_eq_self _ _ _ h2]

theorem stageStrList_eq_self (L : List String) (b : Batch)
    (h : ∀ c' ∈ L, hasCol c' b = true → AllRows (ColFixedRow c' strClean) b) :
    stageStrList L b = b := by
  induction L with
  | nil => rfl
  | cons c0 L ih =>
    unfold stageStrList
    simp only [List.foldl_cons]
    rw [applyIf_setColB_eq_self c0 strClean b (h c0 (by simp))]
    have h2 := ih (fun c' hc' => h c' (by simp [hc']))
    unfold stageStrList at h2
    exact h2

theorem stageLoc_eq_self (b : Batch)
    (h1 : hasCol "res_state" b = true → AllRows (ColNonNullRow "res_state") b)
    (h2 : hasCol "state_fips_code" b = true → AllRows (ColNonNullRow "state_fips_code") b) :
    stageLoc b = b := by
  unfold stageLoc
  have hrs : applyIf (hasCol "res_state") (dropNullRows "res_state") b = b := by
    by_cases hc : hasCol "res_state" b = true
    · exact applyIf_dropNull_eq_self _ _ _ (h1 hc)
    · apply applyIf_cond_false
      revert hc
      cases hasCol "res_state" b <;> simp
  rw [hrs]
  by_cases hc : hasCol "state_fips_code" b = true
  · exact applyIf_dropNull_eq_self _ _ _ (h2 hc)
  · apply applyIf_cond_false
    revert hc
    cases hasCol "state_fips_code" b <;> simp

theorem stageProc_eq_self (b : Batch) (h : "process" ∈ b.cols) : stageProc b = b := by
  unfold stageProc
  apply applyIf_cond_false
  unfold hasCol
  simp [h]

theorem nonNull_of_colFixed_strClean (c : String) (b : Batch)
    (h : AllRows (ColFixedRow c strClean) b) : AllRows (ColNonNullRow c) b := by
  intro r hr
  rcases h r hr with ⟨v, hget, hfix, _⟩
  unfold ColNonNullRow getVal
  rw [hget]
  simp only [Option.getD_some]
  intro hv
  rw [hv] at hfix
  exact absurd hfix (by decide)

theorem cleanLocal_idem (b : Batch) : cleanLocal (cleanLocal b) = cleanLocal b := by
  conv_lhs => rw [cleanLocal]
  have hproc : "process" ∈ (cleanLocal b).cols := by
    unfold cleanLocal
    exact process_mem_stageProc _
  have hd : stageDate (cleanLocal b) = cleanLocal b := by
    apply stageDate_eq_self
    intro hcm
    rw [hasCol_cleanLocal _ _ (by decide)] at hcm
    exact inv_cm b hcm
  rw [hd]
  have hn : stageNum (cleanLocal b) = cleanLocal b := by
    apply stageNum_eq_self
    · intro h1
      rw [hasCol_cleanLocal _ _ (by decide)] at h1
      exact inv_num b _ (Or.inl rfl) h1
    · intro h2
      rw [hasCol_cleanLocal _ _ (by decide)] at h2
      exact inv_num b _ (Or.inr rfl) h2
  rw [hn]
  have hs : stageStrList strCols (cleanLocal b) = cleanLocal b := by
    apply stageStrList_eq_self
    intro c' hc' hcol
    have hne : c' ≠ "process" := by
      intro hx
      rw [hx] at hc'
      revert hc'
      decide
    rw [hasCol_cleanLocal _ _ hne] at hcol
    exact inv_str b c' hc' hcol
  rw [hs]
  have hl : stageLoc (cleanLocal b) = cleanLocal b := by
    apply stageLoc_eq_self
    · intro h1
      rw [hasCol_cleanLocal _ _ (by decide)] at h1
      exact nonNull_of_colFixed_strClean _ _ (inv_str b "res_state" (by decide) h1)
    · intro h2
      rw [hasCol_cleanLocal _ _ (by decide)] at h2
      exact inv_fips b h2
  rw [hl]
  exact stageProc_eq_self _ hproc

/-- Claim C5: `clean_and_transform` is idempotent — applying the transform to
its own output returns that output unchanged, for every batch. -/
theorem clean_and_transform_idempotent (b : Batch) :
    clean_and_transform (clean_and_transform b) = clean_and_transform b := by
  by_cases h : b.rows.isEmpty = true
  · rw [clean_eq_cleanLocal b, if_pos h, clean_eq_cleanLocal b, if_pos h]
  · rw [clean_eq_cleanLocal b, if_neg h, clean_eq_cleanLocal (cleanLocal b)]
    by_cases h2 : (cleanLocal b).rows.isEmpty = true
    · rw [if_pos h2]
    · rw [if_neg h2]
      exact cleanLocal_idem b

/-- Claim C1 amended: when both location columns are present, no output row of
`clean_and_transform` carries a null `state_fips_code` (such rows are dropped)
nor a null `res_state` — but a null `res_state` is not dropped: it is replaced
by `'Unknown'` before the dropna step, so the row survives. -/
theorem clean_output_location_fields (b : Batch)
    (hf : hasCol "state_fips_code" b = true) (hr : hasCol "res_state" b = true) :
    ∀ r ∈ (clean_and_transform b).rows,
      getVal r "state_fips_code" ≠ .vNull ∧ getVal r "res_state" ≠ .vNull := by
  intro r hrr
  rw [clean_eq_cleanLocal b] at hrr
  by_cases h : b.rows.isEmpty = true
  · rw [if_pos h] at hrr
    have hnil : b.rows = [] := by
      revert h
      cases b.rows <;> simp
    rw [hnil] at hrr
    simp at hrr
  · rw [if_neg h] at hrr
    exact ⟨inv_fips b hf r hrr,
      nonNull_of_colFixed_strClean _ _ (inv_str b "res_state" (by decide) hr) r hrr⟩

set_option maxRecDepth 8000 in
/-- Witness for the amended C1: the single output row of the concrete batch has
non-null location fields. -/
theorem clean_output_location_fields_witness :
    getVal [("case_month", Val.vDate 2020051), ("res_state", Val.vStr "Unknown"),
      ("state_fips_code", Val.vInt 5), ("process", Val.vStr "Unknown")] "state_fips_code" ≠
        Val.vNull ∧
    getVal [("case_month", Val.vDate 2020051), ("res_state", Val.vStr "Unknown"),
      ("state_fips_code", Val.vInt 5), ("process", Val.vStr "Unknown")] "res_state" ≠
        Val.vNull :=
  clean_output_location_fields exBatchNullState (by decide) (by decide) _ (by decide)

/-- Claim C8 amended: when an interval column is present, every output row of
`clean_and_transform` holds an integer in it (possibly negative), with 0
substituted for null and unparsable cells. -/
theorem clean_intervals_are_integers (b : Batch) (c : String)
    (hc : c = "case_positive_specimen_interval" ∨ c = "case_onset_interval")
    (h : hasCol c b = true) :
    (∀ r ∈ (clean_and_transform b).rows, ∃ n : Int, getVal r c = .vInt n) ∧
    coerceInt .vNull = .vInt 0 ∧
    ∀ s, parseIntStr s = none → coerceInt (.vStr s) = .vInt 0 := by
  refine ⟨?_, rfl, ?_⟩
  · intro r hrr
    rw [clean_eq_cleanLocal b] at hrr
    by_cases hemp : b.rows.isEmpty = true
    · rw [if_pos hemp] at hrr
      have hnil : b.rows = [] := by
        revert hemp
        cases b.rows <;> simp
      rw [hnil] at hrr
      simp at hrr
    · rw [if_neg hemp] at hrr
      rcases inv_num b c hc h r hrr with ⟨v, hget, hfix, _⟩
      have hgv : getVal r c = v := by
        unfold getVal
        rw [hget]
        rfl
      cases v with
      | vInt n => exact ⟨n, by rw [hgv]⟩
      | vStr t =>
        simp [coerceInt] at hfix
      | vDate d =>
        simp [coerceInt] at hfix
      | vNull =>
        simp [coerceInt] at hfix
  · intro t ht
    show Val.vInt ((parseIntStr t).getD 0) = Val.vInt 0
    rw [ht]
    rfl

set_option maxRecDepth 8000 in
/-- Witness for the amended C8: the single output row of the negative-string
batch holds an integer interval cell, and the 0-substitution equations hold at
null and at the unparsable string `abc`. -/
theorem clean_intervals_are_integers_witness :
    (∃ n : Int, getVal [("case_positive_specimen_interval", Val.vInt (-3)),
      ("process", Val.vStr "Unknown")] "case_positive_specimen_interval" = Val.vInt n) ∧
    coerceInt .vNull = .vInt 0 ∧ coerceInt (.vStr "abc") = .vInt 0 :=
  ⟨(clean_intervals_are_integers exBatchNegInterval "case_positive_specimen_interval"
      (Or.inl rfl) (by decide)).1 _ (by decide),
   (clean_intervals_are_integers exBatchNegInterval "case_positive_specimen_interval"
      (Or.inl rfl) (by decide)).2.1,
   (clean_intervals_are_integers exBatchNegInterval "case_positive_specimen_interval"
      (Or.inl rfl) (by decide)).2.2 "abc" (by decide)⟩

end CdcEtl
